import Mathlib

/-!
# Verification of the qq.Scaler image scaling pipeline

Shallow embedding of `src/client/js/scaling/scaler.js` (fine-uploader), with
proofs about the claims C1 to C10 of the specification.

Modelling conventions:
* JS strings appearing in optional positions are modelled as `String`, with the
  empty string standing for a JS falsy value (`undefined` or `""`).  The source
  only ever tests these values for truthiness or compares them with nonempty
  MIME literals, so the two falsy values are indistinguishable in every branch
  modelled here.
* A decoded byte string is modelled as its list of UTF-16 code units
  (`List Nat`); `charCodeAt` is then the identity, and the `Uint8Array` store
  of `_dataUriToBlob` truncates each unit with `% 256`, as the typed array
  does.
* The platform builtins `atob` and `decodeURI` are embedded with their
  standard semantics on the inputs reachable from this module (see the doc
  comments on `atobChars` and `decodeURIChars`).
* External collaborators (previewability check, rendering engine, EXIF
  restorer, capability flags, unique id allocator) are injected as explicit
  parameters, following sections 6 and 9 of the spec, which treat them as
  interface boundaries.
-/

namespace Scaler

/-- A size spec from the `sizes` configuration: `{maxSize, name, type}`, where
`type` is the optional per-size requested MIME type (empty string = absent). -/
structure SizeSpec where
  maxSize : Nat
  name : String
  type : String
  deriving DecidableEq

/-- The reference file or blob: only its display name and MIME type are read by
the code modelled here. -/
structure SourceFile where
  name : String
  type : String
  deriving DecidableEq

/-- One call to the injected logger: message text plus severity (the source
passes "error" explicitly and lets the severity default to "info" otherwise). -/
structure LogEntry where
  msg : String
  severity : String
  deriving DecidableEq

/-- The binary object produced by `_createBlob`: byte buffer plus MIME tag. -/
structure JsBlob where
  bytes : List Nat
  type : String
  deriving DecidableEq

/-- Model of `_createBlob(data, mime)` (scaler.js lines 256-272): wraps the
byte buffer and the MIME string into a blob value. -/
def _createBlob (data : List Nat) (mime : String) : JsBlob :=
  { bytes := data, type := mime }

/-! ## Character level helpers

The source splits strings on the single-character separators "," ":" ";" "/".
`splitChar` is JS `String.prototype.split` with a one-character separator,
expressed on the character list of the string. -/

/-- JS `s.split(sep)` for a one-character separator: the list of (possibly
empty) segments between occurrences of the separator; never empty. -/
def splitChar (c : Char) : List Char → List (List Char)
  | [] => [[]]
  | x :: xs =>
    match splitChar c xs with
    | [] => [[]]
    | h :: t => if x = c then [] :: h :: t else (x :: h) :: t

/-- First position of a character when scanning a list. -/
def charIdx (c : Char) : List Char → Option Nat
  | [] => none
  | x :: xs => if x = c then some 0 else (charIdx c xs).map (· + 1)

/-- Last position of a character in a list, as JS `lastIndexOf` (with `none`
for the JS result -1). -/
def lastIdxOf (c : Char) : List Char → Option Nat
  | [] => none
  | x :: xs =>
    match lastIdxOf c xs with
    | some j => some (j + 1)
    | none => if x = c then some 0 else none

/-- JS `hay.indexOf(needle) >= 0` for string arguments: does `needle` occur as
a contiguous subsequence of `hay`. -/
def hasSub (needle : List Char) : List Char → Bool
  | [] => decide (needle = [])
  | x :: xs => decide ((x :: xs).take needle.length = needle) || hasSub needle xs

/-! ## Base64 (platform `atob`, and the test-side encoder `btoa`) -/

/-- The standard base64 alphabet used by the platform `btoa` and `atob`. -/
def b64Alphabet : List Char :=
  ("ABCDEFGHIJKLMNOPQRSTUVWXYZabcdefghijklmnopqrstuvwxyz0123456789+/").toList

/-- Character for a 6-bit value. -/
def b64Char (n : Nat) : Char := b64Alphabet.getD n 'A'

/-- 6-bit value of a base64 character (none for characters outside the
alphabet, in particular for the padding character). -/
def b64Val (c : Char) : Option Nat := charIdx c b64Alphabet

/-- Test-side base64 encoder (platform `btoa` restricted to byte values):
standard canonical encoding with `=` padding. -/
def btoaChars : List Nat → List Char
  | [] => []
  | [b1] => [b64Char (b1 / 4), b64Char (b1 % 4 * 16), '=', '=']
  | [b1, b2] =>
      [b64Char (b1 / 4), b64Char (b1 % 4 * 16 + b2 / 16), b64Char (b2 % 16 * 4), '=']
  | b1 :: b2 :: b3 :: rest =>
      b64Char (b1 / 4) :: b64Char (b1 % 4 * 16 + b2 / 16) ::
        b64Char (b2 % 16 * 4 + b3 / 64) :: b64Char (b3 % 64) :: btoaChars rest

/-- Test-side base64 encoder packaged as a string. -/
def btoa (bytes : List Nat) : String := String.mk (btoaChars bytes)

/-- Platform `atob` on the character list of its argument, producing the code
units of the decoded byte string.  Embedded for canonical padded base64 (the
only form `btoa`, `canvas.toDataURL` and the EXIF restorer produce); inputs
that the browser would reject with an error decode to `none`, and the
whitespace stripping and unpadded forms of the forgiving-base64 algorithm,
which no reachable input exercises, are not modelled. -/
def atobChars : List Char → Option (List Nat)
  | c1 :: c2 :: c3 :: c4 :: rest =>
    (b64Val c1).bind fun v1 =>
    (b64Val c2).bind fun v2 =>
    if c3 = '=' then
      if c4 = '=' ∧ rest = [] then some [v1 * 4 + v2 / 16] else none
    else
      (b64Val c3).bind fun v3 =>
      if c4 = '=' then
        if rest = [] then some [v1 * 4 + v2 / 16, v2 % 16 * 16 + v3 / 4] else none
      else
        (b64Val c4).bind fun v4 =>
        (atobChars rest).map fun tl =>
          (v1 * 4 + v2 / 16) :: (v2 % 16 * 16 + v3 / 4) :: (v3 % 4 * 64 + v4) :: tl
  | [] => some []
  | _ => none

/-! ## Percent encoding (platform `decodeURI`, and a test-side encoder) -/

/-- Uppercase hexadecimal digits. -/
def hexDigits : List Char := ("0123456789ABCDEF").toList

/-- Hexadecimal digit for a value below 16. -/
def hexChar (n : Nat) : Char := hexDigits.getD n '0'

/-- Value of a hexadecimal digit, upper or lower case (as the platform URI
decoder accepts). -/
def hexVal (c : Char) : Option Nat :=
  if '0' ≤ c ∧ c ≤ '9' then some (c.toNat - 48)
  else if 'A' ≤ c ∧ c ≤ 'F' then some (c.toNat - 55)
  else if 'a' ≤ c ∧ c ≤ 'f' then some (c.toNat - 87)
  else none

/-- Code points of the characters whose escape sequences `decodeURI` refuses
to unescape: the URI reserved set plus the number sign, that is
`# $ & + , / : ; = ? @`. -/
def uriReservedCodes : List Nat := [35, 36, 38, 43, 44, 47, 58, 59, 61, 63, 64]

/-- Platform `decodeURI` on the character list of its argument, producing the
code units of the result.  An escape sequence for a character of
`uriReservedCodes` is kept as its three literal characters; other one-byte
escapes are decoded; a malformed escape decodes to `none` (the browser throws
URIError).  Escapes with a value of 128 or above start multi-byte UTF-8
sequences; the spec (section 4.4) declares non-byte payloads a precondition
violation, and no reachable input produces such escapes, so they are mapped to
`none` here. -/
def decodeURIChars : List Char → Option (List Nat)
  | [] => some []
  | '%' :: rest =>
    match rest with
    | h1 :: h2 :: rest2 =>
      (hexVal h1).bind fun v1 =>
      (hexVal h2).bind fun v2 =>
      if v1 * 16 + v2 ∈ uriReservedCodes then
        (decodeURIChars rest2).map fun tl => 37 :: h1.toNat :: h2.toNat :: tl
      else if v1 * 16 + v2 < 128 then
        (decodeURIChars rest2).map fun tl => (v1 * 16 + v2) :: tl
      else none
    | _ => none
  | c :: rest => (decodeURIChars rest).map fun tl => c.toNat :: tl

/-- Test-side percent encoder: every byte as an escape `%XX`. -/
def percentEncodeByte (b : Nat) : List Char := ['%', hexChar (b / 16), hexChar (b % 16)]

/-- Test-side percent encoder over a byte sequence. -/
def percentEncode : List Nat → List Char
  | [] => []
  | b :: rest => percentEncodeByte b ++ percentEncode rest

/-! ## The binary codec `_dataUriToBlob` (scaler.js lines 228-254) -/

/-- Shared tail of the codec, after the payload has been selected: decode the
payload (base64 when the header mentions base64, else percent decoding),
extract the MIME between the first ":" and the following ";" of the header,
and build the blob.  A missing colon makes the JS source throw while splitting
`undefined`; this is `none` here. -/
def decodePayload (header payload : List Char) : Option JsBlob :=
  let byteString? :=
    if hasSub ("base64").toList header then atobChars payload else decodeURIChars payload
  byteString?.bind fun byteString =>
    match splitChar ':' header with
    | _ :: afterColon :: _ =>
        some (_createBlob (byteString.map (· % 256))
          (String.mk ((splitChar ';' afterColon).headD [])))
    | _ => none

/-- Model of `_dataUriToBlob` (scaler.js lines 228-254).  The source computes
`dataUri.split(",")[0]` as the header and `dataUri.split(",")[1]` as the
payload, that is: the segment before the first comma, and the segment between
the first and the second comma.  A data URI with no comma makes the JS source
throw inside `atob` or `decodeURI`; this is `none` here. -/
def _dataUriToBlob (dataUri : String) : Option JsBlob :=
  match splitChar ',' dataUri.toList with
  | header :: payload :: _ => decodePayload header payload
  | _ => none

/-- Split a list at the first occurrence of a character: the part before it,
and (when present) the whole remainder after it. -/
def breakAtFirst (c : Char) : List Char → List Char × Option (List Char)
  | [] => ([], none)
  | x :: xs =>
    if x = c then ([], some xs)
    else
      let p := breakAtFirst c xs
      (x :: p.1, p.2)

/-- Binary codec as the spec words it (section 4.4): split on the FIRST comma
only, the whole remainder after the first comma being the payload.  Used to
compare the source behaviour against the spec sentence of claim C5. -/
def dataUriToBlobFirstComma (dataUri : String) : Option JsBlob :=
  match breakAtFirst ',' dataUri.toList with
  | (header, some payload) => decodePayload header payload
  | (_, none) => none

/-- Test-side constructor of a base64 data URI from a MIME type and bytes. -/
def mkBase64DataUri (mime : String) (bytes : List Nat) : String :=
  "data:" ++ mime ++ ";base64," ++ btoa bytes

/-- Test-side constructor of a percent-encoded data URI from a MIME type and
bytes. -/
def mkPercentDataUri (mime : String) (bytes : List Nat) : String :=
  "data:" ++ mime ++ "," ++ String.mk (percentEncode bytes)

/-! ## Type negotiator `_determineOutputType` (scaler.js lines 81-112)

The source reads two pieces of ambient platform state: the key set of
`qq.Identify.prototype.PREVIEWABLE_MIME_TYPES` and the capability flag
`qq.supportedFeatures.tiffPreviews`.  Both are injected here as explicit
parameters (`previewableTypes`, `tiffPreviews`), following the capability
injection prescribed by spec sections 6 and 9; `qq.indexOf(keys, t) >= 0` is
list membership. -/

/-- Model of `_determineOutputType`: choose the output MIME type from the
configured default type, the per-size requested type and the reference type
(empty string = JS falsy absent value). -/
def _determineOutputType (previewableTypes : List String) (tiffPreviews : Bool)
    (defaultType requestedType referenceType : String) : String :=
  if defaultType = "" ∧ requestedType = "" then
    if referenceType ≠ "image/jpeg" then "image/png" else referenceType
  else if requestedType = "" then
    defaultType
  else if requestedType ∈ previewableTypes then
    if requestedType = "image/tiff" then
      if tiffPreviews then requestedType else defaultType
    else requestedType
  else
    defaultType

/-! ## Name deriver `_getName` (scaler.js lines 115-139) -/

/-- JS `s.split(sep)[1]` concatenated into a string: when the separator does
not occur, the JS index is `undefined` and string concatenation renders it as
the text `undefined`. -/
def jsSecondSegment (c : Char) (s : String) : String :=
  match splitChar c s.toList with
  | _ :: seg :: _ => String.mk seg
  | _ => "undefined"

/-- Modelled from the spec: the helper `qq.getExtension` lives in the
repository file `client/js/util.js`, which is not under `src/`; spec section
4.2 pins it down as the original extension of the name, the text after the
last dot.  The no-dot case is never consulted by the code modelled here
because `_getName` only reads the extension after finding a dot. -/
def qq_getExtension (s : String) : String :=
  match lastIdxOf '.' s.toList with
  | some i => String.mk (s.toList.drop (i + 1))
  | none => ""

/-- Model of `_getName(originalName, scaledVersionProperties)`: derive the
display name of a scaled record from the original name, the size label
(`scaledVersionProperties.name`), the negotiated output type
(`scaledVersionProperties.type`, empty = JS falsy) and the reference type
(`scaledVersionProperties.refType`). -/
def _getName (originalName label vType refType : String) : String :=
  let nameAppendage := " (" ++ label ++ ")"
  let versionType := if vType = "" then "image/png" else vType
  match lastIdxOf '.' originalName.toList with
  | some startOfExt =>
    let scaledExt :=
      if refType ≠ versionType then jsSecondSegment '/' versionType
      else qq_getExtension originalName
    String.mk (originalName.toList.take startOfExt) ++ nameAppendage ++ "." ++ scaledExt
  | none => originalName ++ nameAppendage

/-! ## Size ordering `_getSortedSizes` (scaler.js lines 142-156)

The source copies the configured array and sorts it with a comparator on
`maxSize` that returns 0 for ties, so any sort agreeing with the comparator is
a faithful model of the (implementation-defined for ties) JS result; spec
section 4.3 makes the same point.  `List.insertionSort` with the `maxSize`
order is used. -/

/-- Comparator order of `_getSortedSizes`. -/
def sizeLE (a b : SizeSpec) : Prop := a.maxSize ≤ b.maxSize

instance : DecidableRel sizeLE := fun a b => Nat.decLe a.maxSize b.maxSize

instance : IsTotal SizeSpec sizeLE := ⟨fun a b => Nat.le_total a.maxSize b.maxSize⟩

instance : IsTrans SizeSpec sizeLE := ⟨fun _ _ _ h h2 => Nat.le_trans h h2⟩

/-- Model of `_getSortedSizes`: a defensive copy of the size specs, sorted
ascending by `maxSize`. -/
def _getSortedSizes (sizes : List SizeSpec) : List SizeSpec :=
  List.insertionSort sizeLE sizes

/-! ## The derivative generator `_generateScaledImage` (scaler.js lines
158-202) and `_insertExifHeader` (lines 205-225)

The asynchronous collaborators are injected as one environment value fixing
the outcome of each external call of a single producer run: the rendering
engine call, the rendered Data-URI read off the canvas, the FileReader read of
the original source, and the EXIF restorer.  The functions return the value
the deferred result settles to, paired with the logger calls in temporal
order.  An uncaught platform throw inside the success path (malformed Data-URI
handed to `atob`, a precondition violation per spec section 4.4) leaves the
deferred pending; that is the `none` outcome. -/

/-- Parameters closed over by one scaled-record producer (the object literal
built at scaler.js lines 52-60, minus the injected logger).  The source stores
`spec.defaultQuality / 100` (a float); the raw percent is kept here, division
by the constant 100 being irrelevant to every claim. -/
structure GenSpec where
  maxSize : Nat
  orient : Bool
  type : String
  quality : Nat
  failedText : String
  includeExif : Bool
  deriving DecidableEq

/-- Outcomes of the external calls made during one producer run. -/
structure GenEnv where
  renderOk : Bool
  renderedUri : String
  readOk : Bool
  originalUri : String
  restore : String → String → String

/-- Model of `_insertExifHeader(originalImage, scaledImageDataUri, log)`: read
the original as a Data-URI and hand both URIs to the EXIF restorer; a read
failure rejects the insertion effort after logging. -/
def _insertExifHeader (env : GenEnv) (originalImage : SourceFile)
    (scaledImageDataUri : String) : Except Unit String × List LogEntry :=
  if env.readOk then
    (Except.ok (env.restore env.originalUri scaledImageDataUri), [])
  else
    (Except.error (),
      [{ msg := "Problem reading " ++ originalImage.name ++
          " during attempt to transfer EXIF data to scaled version.", severity := "error" }])

/-- Success leg of `_generateScaledImage`: log success, decode the Data-URI
and resolve with the blob (`none` models the uncaught codec throw). -/
def signalSuccess (sourceFile : SourceFile) (uri : String) (logsSoFar : List LogEntry) :
    Option (Except String JsBlob) × List LogEntry :=
  let logs := logsSoFar ++
    [{ msg := "Success generating scaled version for " ++ sourceFile.name, severity := "info" }]
  match _dataUriToBlob uri with
  | some blob => (some (Except.ok blob), logs)
  | none => (none, logs)

/-- Model of `_generateScaledImage(spec, sourceFile)`: the value the scaling
effort settles to (resolved blob, rejection text, or `none` for a pending
effort after an uncaught throw), with the logger calls in order. -/
def _generateScaledImage (gs : GenSpec) (sourceFile : SourceFile) (env : GenEnv) :
    Option (Except String JsBlob) × List LogEntry :=
  let includeExif :=
    gs.includeExif && sourceFile.type == "image/jpeg" && gs.type == "image/jpeg"
  let logs0 : List LogEntry :=
    [{ msg := "Attempting to generate scaled version for " ++ sourceFile.name,
       severity := "info" }]
  if env.renderOk then
    let scaledImageDataUri := env.renderedUri
    if includeExif then
      match _insertExifHeader env sourceFile scaledImageDataUri with
      | (Except.ok merged, insertLogs) =>
          signalSuccess sourceFile merged (logs0 ++ insertLogs)
      | (Except.error _, insertLogs) =>
          signalSuccess sourceFile scaledImageDataUri (logs0 ++ insertLogs ++
            [{ msg := "Problem inserting EXIF header into scaled image.  Using scaled image w/out EXIF data.",
               severity := "error" }])
    else
      signalSuccess sourceFile scaledImageDataUri logs0
  else
    (some (Except.error gs.failedText), logs0 ++
      [{ msg := "Failed attempt to generate scaled version for " ++ sourceFile.name,
         severity := "error" }])

/-! ## Pipeline orchestrator `getFileRecords` (scaler.js lines 28-74) -/

/-- The blob slot of a produced record: either a `qq.BlobProxy` closing over
`_generateScaledImage` with the given parameters, or the untouched reference
blob itself. -/
inductive RecBlob
  | proxy (gs : GenSpec)
  | original
  deriving DecidableEq

/-- One element of the list returned by `getFileRecords`. -/
structure FileRecord where
  uuid : String
  name : String
  blob : RecBlob
  deriving DecidableEq

/-- The configuration record handed to the `qq.Scaler` constructor (spec
section 6); `defaultType` empty = absent, `sizes` as configured. -/
structure ScalerSpec where
  sendOriginal : Bool
  orient : Bool
  defaultType : String
  defaultQuality : Nat
  failureText : String
  includeExif : Bool
  sizes : List SizeSpec
  deriving DecidableEq

/-- One scaled-version record pushed at scaler.js lines 44-62. -/
def scaledRecord (cfg : ScalerSpec) (previewableTypes : List String) (tiffPreviews : Bool)
    (originalFileName originalBlobType uuid : String) (sizeRecord : SizeSpec) : FileRecord :=
  let outputType := _determineOutputType previewableTypes tiffPreviews
    cfg.defaultType sizeRecord.type originalBlobType
  { uuid := uuid
    name := _getName originalFileName sizeRecord.name outputType originalBlobType
    blob := RecBlob.proxy
      { maxSize := sizeRecord.maxSize
        orient := cfg.orient
        type := outputType
        quality := cfg.defaultQuality
        failedText := cfg.failureText
        includeExif := cfg.includeExif } }

/-- The `qq.each` loop over the sorted sizes; `freshId` is the injected
`qq.getUniqueId` allocator, applied at successive allocation points. -/
def scaledRecordsAux (cfg : ScalerSpec) (previewableTypes : List String)
    (tiffPreviews : Bool) (originalFileName originalBlobType : String)
    (freshId : Nat → String) : Nat → List SizeSpec → List FileRecord
  | _, [] => []
  | i, s :: rest =>
    scaledRecord cfg previewableTypes tiffPreviews originalFileName originalBlobType
      (freshId i) s ::
    scaledRecordsAux cfg previewableTypes tiffPreviews originalFileName originalBlobType
      freshId (i + 1) rest

/-- Model of `getFileRecords(originalFileUuid, originalFileName,
originalBlob)`: scaled-version records for each sorted size when the
reference is previewable, then the reference record when `sendOriginal` is
configured.  `previewable` is the result of the injected synchronous
previewability check (spec section 6). -/
def getFileRecords (cfg : ScalerSpec) (previewableTypes : List String)
    (tiffPreviews previewable : Bool) (freshId : Nat → String)
    (originalFileUuid originalFileName originalBlobType : String) : List FileRecord :=
  (if previewable then
    scaledRecordsAux cfg previewableTypes tiffPreviews originalFileName originalBlobType
      freshId 0 (_getSortedSizes cfg.sizes)
  else []) ++
  (if cfg.sendOriginal then
    [{ uuid := originalFileUuid, name := originalFileName, blob := RecBlob.original }]
  else [])

/-- The `maxSize` parameters closed over by the proxy records, in list order
(the reference record carries no size). -/
def variantMaxSizes (records : List FileRecord) : List Nat :=
  records.filterMap fun r =>
    match r.blob with
    | RecBlob.proxy gs => some gs.maxSize
    | RecBlob.original => none

/-- The negotiated output type closed over by a proxy record, when any. -/
def recordOutputType (r : FileRecord) : Option String :=
  match r.blob with
  | RecBlob.proxy gs => some gs.type
  | RecBlob.original => none

/-- Observable used by the naming claims: the text after the last dot of a
string (empty when there is no dot). -/
def extAfterLastDot (s : String) : List Char :=
  match lastIdxOf '.' s.toList with
  | some i => s.toList.drop (i + 1)
  | none => []

/-! ## Helper lemmas -/

theorem toList_mk (l : List Char) : (String.mk l).toList = l := rfl

theorem toList_append (a b : String) : (a ++ b).toList = a.toList ++ b.toList := rfl

theorem getD_mem_or_eq (l : List Char) (n : Nat) (d : Char) :
    l.getD n d ∈ l ∨ l.getD n d = d := by
  induction l generalizing n with
  | nil => right; cases n <;> rfl
  | cons x xs ih =>
    cases n with
    | zero => left; exact List.mem_cons_self _ _
    | succ m =>
      rcases ih m with h | h
      · left
        simp only [List.getD_cons_succ]
        exact List.mem_cons_of_mem _ h
      · right
        simp only [List.getD_cons_succ]
        exact h

theorem b64Char_ne_comma (n : Nat) : b64Char n ≠ ',' := by
  have h := getD_mem_or_eq b64Alphabet n 'A'
  unfold b64Char
  rcases h with h | h
  · intro e
    rw [e] at h
    revert h
    decide
  · rw [h]
    decide

theorem hexChar_ne_comma (n : Nat) : hexChar n ≠ ',' := by
  have h := getD_mem_or_eq hexDigits n '0'
  unfold hexChar
  rcases h with h | h
  · intro e
    rw [e] at h
    revert h
    decide
  · rw [h]
    decide

theorem comma_not_mem_btoaChars (bs : List Nat) : ',' ∉ btoaChars bs := by
  induction bs using btoaChars.induct with
  | case1 => simp [btoaChars]
  | case2 b1 =>
    simp only [btoaChars, List.mem_cons, not_or]
    exact ⟨fun e => b64Char_ne_comma _ e.symm, fun e => b64Char_ne_comma _ e.symm,
      by decide, by decide, by simp⟩
  | case3 b1 b2 =>
    simp only [btoaChars, List.mem_cons, not_or]
    exact ⟨fun e => b64Char_ne_comma _ e.symm, fun e => b64Char_ne_comma _ e.symm,
      fun e => b64Char_ne_comma _ e.symm, by decide, by simp⟩
  | case4 b1 b2 b3 rest ih =>
    simp only [btoaChars, List.mem_cons, not_or]
    exact ⟨fun e => b64Char_ne_comma _ e.symm, fun e => b64Char_ne_comma _ e.symm,
      fun e => b64Char_ne_comma _ e.symm, fun e => b64Char_ne_comma _ e.symm, ih⟩

theorem comma_not_mem_percentEncode (bs : List Nat) : ',' ∉ percentEncode bs := by
  induction bs with
  | nil => simp [percentEncode]
  | cons b rest ih =>
    simp only [percentEncode, percentEncodeByte, List.cons_append, List.mem_cons,
      List.nil_append, not_or]
    exact ⟨by decide, fun e => hexChar_ne_comma _ e.symm, fun e => hexChar_ne_comma _ e.symm, ih⟩

theorem splitChar_ne_nil (c : Char) (l : List Char) : splitChar c l ≠ [] := by
  cases l with
  | nil => simp [splitChar]
  | cons x xs =>
    rcases e : splitChar c xs with _ | ⟨hh, tt⟩
    · simp [splitChar, e]
    · simp only [splitChar, e]
      split <;> simp

theorem splitChar_not_mem {c : Char} {l : List Char} (h : c ∉ l) : splitChar c l = [l] := by
  induction l with
  | nil => rfl
  | cons x xs ih =>
    simp only [List.mem_cons, not_or] at h
    have hx : ¬x = c := fun e => h.1 e.symm
    simp [splitChar, ih h.2, hx]

theorem splitChar_append {c : Char} (l1 l2 : List Char) (h1 : c ∉ l1) :
    splitChar c (l1 ++ c :: l2) = l1 :: splitChar c l2 := by
  induction l1 with
  | nil =>
    rcases e : splitChar c l2 with _ | ⟨hh, tt⟩
    · exact absurd e (splitChar_ne_nil c l2)
    · simp [splitChar, e]
  | cons x xs ih =>
    simp only [List.mem_cons, not_or] at h1
    have hx : ¬x = c := fun e => h1.1 e.symm
    have step : splitChar c (x :: (xs ++ c :: l2)) =
        match splitChar c (xs ++ c :: l2) with
        | [] => [[]]
        | h :: t => if x = c then [] :: h :: t else (x :: h) :: t := rfl
    rw [List.cons_append, step, ih h1.2]
    simp [hx]

theorem splitChar_append_two {c : Char} (l1 l2 : List Char) (h1 : c ∉ l1) (h2 : c ∉ l2) :
    splitChar c (l1 ++ c :: l2) = [l1, l2] := by
  rw [splitChar_append l1 l2 h1, splitChar_not_mem h2]

theorem hasSub_nil_needle (l : List Char) : hasSub [] l = true := by
  cases l <;> simp [hasSub]

theorem hasSub_append_mid (n l1 l2 : List Char) : hasSub n (l1 ++ (n ++ l2)) = true := by
  induction l1 with
  | nil =>
    cases n with
    | nil => exact hasSub_nil_needle l2
    | cons m ms =>
      simp only [List.nil_append, List.cons_append, hasSub, Bool.or_eq_true, decide_eq_true_eq]
      left
      exact List.take_left (m :: ms) l2
  | cons x xs ih =>
    simp only [List.cons_append, hasSub, Bool.or_eq_true]
    right
    exact ih

theorem lastIdxOf_none_of_not_mem {c : Char} {l : List Char} (h : c ∉ l) :
    lastIdxOf c l = none := by
  induction l with
  | nil => rfl
  | cons x xs ih =>
    simp only [List.mem_cons, not_or] at h
    have hx : ¬x = c := fun e => h.1 e.symm
    simp [lastIdxOf, ih h.2, hx]

theorem lastIdxOf_isSome_of_mem {c : Char} {l : List Char} (h : c ∈ l) :
    (lastIdxOf c l).isSome := by
  induction l with
  | nil => cases h
  | cons x xs ih =>
    rcases e : lastIdxOf c xs with _ | j
    · rcases List.mem_cons.mp h with h' | h'
      · simp [lastIdxOf, e, h'.symm]
      · have := ih h'
        rw [e] at this
        cases this
    · simp [lastIdxOf, e]

theorem lastIdxOf_append_cons {c : Char} {l2 : List Char} (h2 : c ∉ l2) (l1 : List Char) :
    lastIdxOf c (l1 ++ c :: l2) = some l1.length := by
  induction l1 with
  | nil =>
    simp [lastIdxOf, lastIdxOf_none_of_not_mem h2]
  | cons x xs ih =>
    simp [lastIdxOf, ih]

theorem lastIdxOf_spec {c : Char} {l : List Char} {i : Nat}
    (h : lastIdxOf c l = some i) :
    ∃ l1 l2, l = l1 ++ c :: l2 ∧ l1.length = i ∧ c ∉ l2 := by
  induction l generalizing i with
  | nil => cases h
  | cons x xs ih =>
    rcases e : lastIdxOf c xs with _ | j
    · by_cases hx : x = c
      · simp only [lastIdxOf, e, hx] at h
        have hi : i = 0 := by simpa using h.symm
        subst hi
        refine ⟨[], xs, by simp [hx], rfl, fun hc => ?_⟩
        have := lastIdxOf_isSome_of_mem hc
        rw [e] at this
        cases this
      · simp [lastIdxOf, e, hx] at h
    · simp only [lastIdxOf, e, Option.some.injEq] at h
      obtain ⟨l1, l2, rfl, rfl, hn⟩ := ih e
      refine ⟨x :: l1, l2, rfl, ?_, hn⟩
      simp only [List.length_cons]
      omega

theorem drop_append_length_succ (l1 l2 : List Char) (c : Char) :
    (l1 ++ c :: l2).drop (l1.length + 1) = l2 := by
  have h : l1 ++ c :: l2 = (l1 ++ [c]) ++ l2 := by simp
  have h2 : l1.length + 1 = (l1 ++ [c]).length := by simp
  rw [h, h2]
  exact List.drop_left _ _

theorem extAfter_eq {s : String} {L1 L2 : List Char} (h : s.toList = L1 ++ '.' :: L2)
    (h2 : '.' ∉ L2) : extAfterLastDot s = L2 := by
  unfold extAfterLastDot
  rw [h, lastIdxOf_append_cons h2]
  exact drop_append_length_succ L1 L2 '.'

theorem variantMaxSizes_scaledRecordsAux (cfg : ScalerSpec) (pt : List String)
    (tp : Bool) (nm bt : String) (f : Nat → String) :
    ∀ (i : Nat) (sizes : List SizeSpec),
      variantMaxSizes (scaledRecordsAux cfg pt tp nm bt f i sizes) =
        sizes.map (·.maxSize) := by
  intro i sizes
  induction sizes generalizing i with
  | nil => rfl
  | cons s rest ih =>
    simp [scaledRecordsAux, variantMaxSizes, List.filterMap_cons, scaledRecord]
    have := ih (i + 1)
    unfold variantMaxSizes at this
    rw [this]

/-! ## Claim C1: variant order ascending, reference last -/

/-- C1: for every configuration and reference passing the previewability
check, the records returned by `getFileRecords` carry non-decreasing
`maxSize` parameters, and when `sendOriginal` is configured the reference
record is the last element. -/
theorem c1_order_and_reference_last (cfg : ScalerSpec) (previewableTypes : List String)
    (tiffPreviews previewable : Bool) (freshId : Nat → String)
    (uuid nm btype : String) (hp : previewable = true) :
    List.Chain' (· ≤ ·)
      (variantMaxSizes
        (getFileRecords cfg previewableTypes tiffPreviews previewable freshId uuid nm btype)) ∧
    (cfg.sendOriginal = true →
      (getFileRecords cfg previewableTypes tiffPreviews previewable freshId uuid nm
          btype).getLast? =
        some { uuid := uuid, name := nm, blob := RecBlob.original }) := by
  subst hp
  constructor
  · unfold getFileRecords variantMaxSizes
    rw [if_pos rfl, List.filterMap_append]
    have hB : (if cfg.sendOriginal then
        [{ uuid := uuid, name := nm, blob := RecBlob.original : FileRecord }]
      else []).filterMap (fun r =>
        match r.blob with
        | RecBlob.proxy gs => some gs.maxSize
        | RecBlob.original => none) = [] := by
      cases cfg.sendOriginal <;> simp
    rw [hB, List.append_nil]
    have hA := variantMaxSizes_scaledRecordsAux cfg previewableTypes tiffPreviews nm btype
      freshId 0 (_getSortedSizes cfg.sizes)
    unfold variantMaxSizes at hA
    rw [hA]
    have hs : List.Sorted sizeLE (_getSortedSizes cfg.sizes) :=
      List.sorted_insertionSort sizeLE cfg.sizes
    have hc : List.Chain' sizeLE (_getSortedSizes cfg.sizes) := List.Pairwise.chain' hs
    rw [List.chain'_map]
    exact hc
  · intro hso
    unfold getFileRecords
    rw [if_pos hso]
    exact List.getLast?_concat _

/-- C1, witness at a concrete configuration with unsorted sizes. -/
theorem c1_order_and_reference_last_witness :
    List.Chain' (· ≤ ·)
      (variantMaxSizes (getFileRecords
        { sendOriginal := true, orient := true, defaultType := "", defaultQuality := 80,
          failureText := "failed", includeExif := false,
          sizes := [{ maxSize := 300, name := "c", type := "" },
                    { maxSize := 100, name := "a", type := "" }] }
        [] false true (fun _ => "id") "u" "r.png" "image/png")) ∧
    (({ sendOriginal := true, orient := true, defaultType := "", defaultQuality := 80,
        failureText := "failed", includeExif := false,
        sizes := [{ maxSize := 300, name := "c", type := "" },
                  { maxSize := 100, name := "a", type := "" }] } : ScalerSpec).sendOriginal =
        true →
      (getFileRecords
        { sendOriginal := true, orient := true, defaultType := "", defaultQuality := 80,
          failureText := "failed", includeExif := false,
          sizes := [{ maxSize := 300, name := "c", type := "" },
                    { maxSize := 100, name := "a", type := "" }] }
        [] false true (fun _ => "id") "u" "r.png" "image/png").getLast? =
        some { uuid := "u", name := "r.png", blob := RecBlob.original }) :=
  c1_order_and_reference_last _ [] false true (fun _ => "id") "u" "r.png" "image/png" rfl

/-! ## Claim C9: reference not previewable -/

/-- C9: when the previewability check reports false, `getFileRecords`
produces no size-derived records: only the reference passthrough when
`sendOriginal` is configured, the empty list otherwise; the function returns
normally either way. -/
theorem c9_not_previewable (cfg : ScalerSpec) (previewableTypes : List String)
    (tiffPreviews previewable : Bool) (freshId : Nat → String)
    (uuid nm btype : String) (hp : previewable = false) :
    getFileRecords cfg previewableTypes tiffPreviews previewable freshId uuid nm btype =
      if cfg.sendOriginal then
        [{ uuid := uuid, name := nm, blob := RecBlob.original }]
      else [] := by
  subst hp
  unfold getFileRecords
  rw [if_neg (by simp), List.nil_append]

/-- C9, witness at a concrete configuration. -/
theorem c9_not_previewable_witness :
    getFileRecords
      { sendOriginal := true, orient := true, defaultType := "", defaultQuality := 80,
        failureText := "failed", includeExif := false,
        sizes := [{ maxSize := 100, name := "a", type := "" }] }
      [] false false (fun _ => "id") "u" "r.png" "image/png" =
      [{ uuid := "u", name := "r.png", blob := RecBlob.original }] := by
  have h := c9_not_previewable
    { sendOriginal := true, orient := true, defaultType := "", defaultQuality := 80,
      failureText := "failed", includeExif := false,
      sizes := [{ maxSize := 100, name := "a", type := "" }] }
    [] false false (fun _ => "id") "u" "r.png" "image/png" rfl
  simpa using h

/-! ## Claim C8: the photo.jpg scenario -/

/-- C8: with reference photo.jpg of type image/jpeg, sizes small(100) and
large(400), `sendOriginal` set and no default or requested types, the records
are exactly the three names in ascending-size order with the reference last,
and both scaled records negotiate image/jpeg.  The unique id allocator and
the platform capability inputs are universally quantified: the result does
not depend on them. -/
theorem c8_photo_scenario (previewableTypes : List String) (tiffPreviews : Bool)
    (freshId : Nat → String) :
    (getFileRecords
      { sendOriginal := true, orient := true, defaultType := "", defaultQuality := 80,
        failureText := "failed", includeExif := false,
        sizes := [{ maxSize := 100, name := "small", type := "" },
                  { maxSize := 400, name := "large", type := "" }] }
      previewableTypes tiffPreviews true freshId "orig-uuid" "photo.jpg"
      "image/jpeg").map FileRecord.name =
      ["photo (small).jpg", "photo (large).jpg", "photo.jpg"] ∧
    (getFileRecords
      { sendOriginal := true, orient := true, defaultType := "", defaultQuality := 80,
        failureText := "failed", includeExif := false,
        sizes := [{ maxSize := 100, name := "small", type := "" },
                  { maxSize := 400, name := "large", type := "" }] }
      previewableTypes tiffPreviews true freshId "orig-uuid" "photo.jpg"
      "image/jpeg").map recordOutputType =
      [some "image/jpeg", some "image/jpeg", none] := by
  constructor <;> rfl

/-! ## Claim C6: TIFF and the capability flag -/

/-- C6, counterexample.  The claim states that `_determineOutputType` never
returns image/tiff unless the TIFF-preview capability flag is true; but with
the flag false, no per-size requested type and a configured defaultType of
image/tiff, the source returns the defaultType verbatim (scaler.js lines
98-100), that is image/tiff. -/
theorem c6_counterexample :
    _determineOutputType ["image/jpeg", "image/gif", "image/png", "image/bmp", "image/tiff"]
      false "image/tiff" "" "image/png" = "image/tiff" := by decide

/-- C6, amended: for every combination of inputs and capability flags,
`_determineOutputType` returns image/tiff only when the TIFF-preview
capability flag is true or the configured defaultType is itself image/tiff
(the defaultType is returned verbatim, without validation). -/
theorem c6_tiff_needs_capability (previewableTypes : List String) (tiffPreviews : Bool)
    (defaultType requestedType referenceType : String)
    (h : _determineOutputType previewableTypes tiffPreviews defaultType requestedType
      referenceType = "image/tiff") :
    tiffPreviews = true ∨ defaultType = "image/tiff" := by
  unfold _determineOutputType at h
  split_ifs at h with h1 h2 h3 h4 h5 h6
  · exact absurd h (by decide)
  · rw [not_not.mp h2] at h
    exact absurd h (by decide)
  · exact Or.inr h
  · exact Or.inl h6
  · exact Or.inr h
  · exact absurd h h5
  · exact Or.inr h

/-- C6, witness: the amended theorem applied at a concrete input on which the
negotiator does return image/tiff. -/
theorem c6_tiff_needs_capability_witness :
    false = true ∨ ("image/tiff" : String) = "image/tiff" :=
  c6_tiff_needs_capability ["image/tiff"] false "image/tiff" "" "x" (by decide)

/-! ## Claim C7: name derivation with negotiated type equal to reference
type -/

/-- C7, counterexample.  As stated the claim quantifies over every negotiated
type t; for the absent negotiated type (undefined, modelled as the empty
string, which the negotiator can produce per spec section 4.1) the name
deriver substitutes image/png and rewrites the extension to png even though
negotiated and reference type are equal; and for a name without a dot but a
label containing one, the text after the last dot changes as well. -/
theorem c7_counterexample :
    extAfterLastDot (_getName "photo.jpg" "small" "" "") ≠ extAfterLastDot "photo.jpg" ∧
    extAfterLastDot (_getName "photo" "v1.2" "image/png" "image/png") ≠
      extAfterLastDot "photo" := by
  constructor <;> decide

/-- C7, amended: for every original name X containing a dot, every label, and
every present (nonempty) negotiated type t equal to the reference type, the
derived name keeps the text after the last dot of X unchanged. -/
theorem c7_name_preserves_extension (X label t : String) (ht : t ≠ "")
    (hdot : (lastIdxOf '.' X.toList).isSome = true) :
    extAfterLastDot (_getName X label t t) = extAfterLastDot X := by
  obtain ⟨i, hi⟩ := Option.isSome_iff_exists.mp hdot
  obtain ⟨l1, l2, hX, hlen, hnot⟩ := lastIdxOf_spec hi
  have hRHS : extAfterLastDot X = l2 := extAfter_eq hX hnot
  rw [hRHS]
  have hname : _getName X label t t =
      String.mk (X.toList.take i) ++ (" (" ++ label ++ ")") ++ "." ++ qq_getExtension X := by
    unfold _getName
    rw [hi]
    simp [ht]
  have hext : qq_getExtension X = String.mk l2 := by
    unfold qq_getExtension
    rw [hi, hX, ← hlen]
    simp [drop_append_length_succ]
  have htake : X.toList.take i = l1 := by
    rw [hX, ← hlen]
    exact List.take_left l1 _
  have hlist : (_getName X label t t).toList =
      (l1 ++ (" (" ++ label ++ ")").toList) ++ '.' :: l2 := by
    rw [hname, hext, htake]
    simp only [toList_append, toList_mk]
    have hdotstr : (".").toList = ['.'] := rfl
    rw [hdotstr]
    simp
  exact extAfter_eq hlist hnot

/-- C7, witness for the amended theorem at a concrete input. -/
theorem c7_name_preserves_extension_witness :
    extAfterLastDot (_getName "photo.jpg" "small" "image/jpeg" "image/jpeg") =
      extAfterLastDot "photo.jpg" :=
  c7_name_preserves_extension "photo.jpg" "small" "image/jpeg" (by decide) (by decide)

/-! ## Claim C10: absent negotiated type defaults to image/png in the name -/

/-- C10: when the negotiated type handed to `_getName` is absent (empty =
falsy), the deriver substitutes image/png: for every original name with a
dot, the resulting extension is png when the reference type is not image/png,
and is the original extension when the reference type is image/png. -/
theorem c10_absent_type_png (X label refType : String)
    (hdot : (lastIdxOf '.' X.toList).isSome = true) :
    (refType ≠ "image/png" →
      extAfterLastDot (_getName X label "" refType) = ['p', 'n', 'g']) ∧
    (refType = "image/png" →
      extAfterLastDot (_getName X label "" refType) = extAfterLastDot X) := by
  obtain ⟨i, hi⟩ := Option.isSome_iff_exists.mp hdot
  obtain ⟨l1, l2, hX, hlen, hnot⟩ := lastIdxOf_spec hi
  have htake : X.toList.take i = l1 := by
    rw [hX, ← hlen]
    exact List.take_left l1 _
  constructor
  · intro href
    have hname : _getName X label "" refType =
        String.mk (X.toList.take i) ++ (" (" ++ label ++ ")") ++ "." ++ "png" := by
      unfold _getName
      rw [hi]
      have hseg : jsSecondSegment '/' "image/png" = "png" := by decide
      simp [href, hseg]
    have hlist : (_getName X label "" refType).toList =
        (l1 ++ (" (" ++ label ++ ")").toList) ++ '.' :: ['p', 'n', 'g'] := by
      rw [hname, htake]
      simp only [toList_append, toList_mk]
      have hdotstr : (".").toList = ['.'] := rfl
      have hpngstr : ("png").toList = ['p', 'n', 'g'] := rfl
      rw [hdotstr, hpngstr]
      simp
    exact extAfter_eq hlist (by decide)
  · intro href
    have hRHS : extAfterLastDot X = l2 := extAfter_eq hX hnot
    rw [hRHS]
    have hname : _getName X label "" refType =
        String.mk (X.toList.take i) ++ (" (" ++ label ++ ")") ++ "." ++ qq_getExtension X := by
      unfold _getName
      rw [hi]
      simp [href]
    have hext : qq_getExtension X = String.mk l2 := by
      unfold qq_getExtension
      rw [hi, hX, ← hlen]
      simp [drop_append_length_succ]
    have hlist : (_getName X label "" refType).toList =
        (l1 ++ (" (" ++ label ++ ")").toList) ++ '.' :: l2 := by
      rw [hname, hext, htake]
      simp only [toList_append, toList_mk]
      have hdotstr : (".").toList = ['.'] := rfl
      rw [hdotstr]
      simp
    exact extAfter_eq hlist hnot

/-- C10, witness at concrete inputs exercising both branches. -/
theorem c10_absent_type_png_witness :
    (("image/gif" : String) ≠ "image/png" →
      extAfterLastDot (_getName "a.gif" "s" "" "image/gif") = ['p', 'n', 'g']) ∧
    (("image/gif" : String) = "image/png" →
      extAfterLastDot (_getName "a.gif" "s" "" "image/gif") = extAfterLastDot "a.gif") :=
  c10_absent_type_png "a.gif" "s" "image/gif" (by decide)

/-! ## Claim C2: render failure rejects with the configured text -/

/-- C2: whenever the rendering engine call fails, the scaling effort is
rejected with exactly the configured failure text, whatever the EXIF
settings, and an error-severity message is logged (the full log sequence is
pinned by the equality, the membership conjunct singles the error entry
out). -/
theorem c2_render_failure_rejects (gs : GenSpec) (sourceFile : SourceFile) (env : GenEnv)
    (h : env.renderOk = false) :
    _generateScaledImage gs sourceFile env =
      (some (Except.error gs.failedText),
        [{ msg := "Attempting to generate scaled version for " ++ sourceFile.name,
           severity := "info" },
         { msg := "Failed attempt to generate scaled version for " ++ sourceFile.name,
           severity := "error" }]) ∧
    ({ msg := "Failed attempt to generate scaled version for " ++ sourceFile.name,
       severity := "error" } : LogEntry) ∈ (_generateScaledImage gs sourceFile env).2 := by
  have heq : _generateScaledImage gs sourceFile env =
      (some (Except.error gs.failedText),
        [{ msg := "Attempting to generate scaled version for " ++ sourceFile.name,
           severity := "info" },
         { msg := "Failed attempt to generate scaled version for " ++ sourceFile.name,
           severity := "error" }]) := by
    unfold _generateScaledImage
    rw [h]
    simp
  refine ⟨heq, ?_⟩
  rw [heq]
  simp

/-- C2, witness at a concrete failing run (with EXIF preservation on, showing
the rejection is independent of it). -/
theorem c2_render_failure_rejects_witness :
    _generateScaledImage
      { maxSize := 100, orient := true, type := "image/jpeg", quality := 80,
        failedText := "Failed to scale", includeExif := true }
      { name := "photo.jpg", type := "image/jpeg" }
      { renderOk := false, renderedUri := "", readOk := true, originalUri := "",
        restore := fun _ s => s } =
      (some (Except.error "Failed to scale"),
        [{ msg := "Attempting to generate scaled version for photo.jpg",
           severity := "info" },
         { msg := "Failed attempt to generate scaled version for photo.jpg",
           severity := "error" }]) ∧
    ({ msg := "Failed attempt to generate scaled version for photo.jpg",
       severity := "error" } : LogEntry) ∈
      (_generateScaledImage
        { maxSize := 100, orient := true, type := "image/jpeg", quality := 80,
          failedText := "Failed to scale", includeExif := true }
        { name := "photo.jpg", type := "image/jpeg" }
        { renderOk := false, renderedUri := "", readOk := true, originalUri := "",
          restore := fun _ s => s }).2 :=
  c2_render_failure_rejects _ _ _ rfl

/-! ## Claim C3: EXIF-path failure never rejects the variant -/

/-- C3: on the EXIF-transplant path (preservation flag set, source and
negotiated type both image/jpeg), a failure of the read of the original
source leaves the variant resolved with the blob decoded from the original
rendered Data-URI, and failure messages are logged; the variant is never
rejected.  In the source the transplant capability itself is called as a
plain synchronous expression with no failure continuation of its own, so the
read failure is the failure channel of the whole transplant step
(scaler.js lines 205-225). -/
theorem c3_exif_failure_still_resolves (gs : GenSpec) (sourceFile : SourceFile)
    (env : GenEnv) (b : JsBlob)
    (hr : env.renderOk = true) (hread : env.readOk = false)
    (hie : gs.includeExif = true) (hst : sourceFile.type = "image/jpeg")
    (hgt : gs.type = "image/jpeg")
    (hblob : _dataUriToBlob env.renderedUri = some b) :
    _generateScaledImage gs sourceFile env =
      (some (Except.ok b),
        [{ msg := "Attempting to generate scaled version for " ++ sourceFile.name,
           severity := "info" },
         { msg := "Problem reading " ++ sourceFile.name ++
             " during attempt to transfer EXIF data to scaled version.",
           severity := "error" },
         { msg := "Problem inserting EXIF header into scaled image.  Using scaled image w/out EXIF data.",
           severity := "error" },
         { msg := "Success generating scaled version for " ++ sourceFile.name,
           severity := "info" }]) := by
  unfold _generateScaledImage _insertExifHeader signalSuccess
  rw [hr, hread, hie, hst, hgt]
  simp [hblob]

/-- C3, witness at a concrete run with a failing source read. -/
theorem c3_exif_failure_still_resolves_witness :
    _generateScaledImage
      { maxSize := 100, orient := true, type := "image/jpeg", quality := 80,
        failedText := "Failed to scale", includeExif := true }
      { name := "photo.jpg", type := "image/jpeg" }
      { renderOk := true, renderedUri := "data:image/jpeg;base64,AAEC", readOk := false,
        originalUri := "", restore := fun _ s => s } =
      (some (Except.ok { bytes := [0, 1, 2], type := "image/jpeg" }),
        [{ msg := "Attempting to generate scaled version for photo.jpg",
           severity := "info" },
         { msg := "Problem reading photo.jpg during attempt to transfer EXIF data to scaled version.",
           severity := "error" },
         { msg := "Problem inserting EXIF header into scaled image.  Using scaled image w/out EXIF data.",
           severity := "error" },
         { msg := "Success generating scaled version for photo.jpg",
           severity := "info" }]) :=
  c3_exif_failure_still_resolves _ _ _ _ rfl rfl rfl rfl rfl (by decide)

/-! ## Codec round-trip lemmas -/

theorem mk_toList (s : String) : String.mk s.toList = s := rfl

theorem b64_lookup : ∀ n, n < 64 → b64Val (b64Char n) = some n := by decide

theorem b64_ne_pad : ∀ n, n < 64 → b64Char n ≠ '=' := by decide

theorem hex_lookup : ∀ n, n < 16 → hexVal (hexChar n) = some n := by decide

theorem map_mod_256 {bs : List Nat} (h : ∀ b ∈ bs, b < 256) : bs.map (· % 256) = bs := by
  induction bs with
  | nil => rfl
  | cons b rest ih =>
    have hb : b < 256 := h b (by simp)
    have hrest : ∀ x ∈ rest, x < 256 := fun x hx => h x (by simp [hx])
    simp [Nat.mod_eq_of_lt hb, ih hrest]

theorem atob_btoa : ∀ (bs : List Nat), (∀ b ∈ bs, b < 256) →
    atobChars (btoaChars bs) = some bs := by
  intro bs
  induction bs using btoaChars.induct with
  | case1 => intro _; rfl
  | case2 b1 =>
    intro h
    have hb1 : b1 < 256 := h b1 (by simp)
    have e1 := b64_lookup (b1 / 4) (by omega)
    have e2 := b64_lookup (b1 % 4 * 16) (by omega)
    simp [btoaChars, atobChars, e1, e2]
    omega
  | case3 b1 b2 =>
    intro h
    have hb1 : b1 < 256 := h b1 (by simp)
    have hb2 : b2 < 256 := h b2 (by simp)
    have e1 := b64_lookup (b1 / 4) (by omega)
    have e2 := b64_lookup (b1 % 4 * 16 + b2 / 16) (by omega)
    have e3 := b64_lookup (b2 % 16 * 4) (by omega)
    have n3 := b64_ne_pad (b2 % 16 * 4) (by omega)
    simp [btoaChars, atobChars, e1, e2, e3, n3]
    omega
  | case4 b1 b2 b3 rest ih =>
    intro h
    have hb1 : b1 < 256 := h b1 (by simp)
    have hb2 : b2 < 256 := h b2 (by simp)
    have hb3 : b3 < 256 := h b3 (by simp)
    have hrest : ∀ x ∈ rest, x < 256 := fun x hx => h x (by simp [hx])
    have e1 := b64_lookup (b1 / 4) (by omega)
    have e2 := b64_lookup (b1 % 4 * 16 + b2 / 16) (by omega)
    have e3 := b64_lookup (b2 % 16 * 4 + b3 / 64) (by omega)
    have e4 := b64_lookup (b3 % 64) (by omega)
    have n3 := b64_ne_pad (b2 % 16 * 4 + b3 / 64) (by omega)
    have n4 := b64_ne_pad (b3 % 64) (by omega)
    simp [btoaChars, atobChars, e1, e2, e3, e4, n3, n4, ih hrest]
    refine ⟨by omega, by omega, by omega⟩

theorem decodeURI_percentEncode : ∀ (bs : List Nat),
    (∀ b ∈ bs, b < 128 ∧ b ∉ uriReservedCodes) →
    decodeURIChars (percentEncode bs) = some bs := by
  intro bs
  induction bs with
  | nil => intro _; rfl
  | cons b rest ih =>
    intro h
    have hb := h b (by simp)
    have hrest : ∀ x ∈ rest, x < 128 ∧ x ∉ uriReservedCodes :=
      fun x hx => h x (by simp [hx])
    have e1 := hex_lookup (b / 16) (by omega)
    have e2 := hex_lookup (b % 16) (by omega)
    have hv : b / 16 * 16 + b % 16 = b := by omega
    show decodeURIChars ('%' :: hexChar (b / 16) :: hexChar (b % 16) :: percentEncode rest) =
      some (b :: rest)
    simp [decodeURIChars, e1, e2, hv, hb.1, hb.2, ih hrest]

theorem dataUriToBlob_cons {s : String} {hd pl : List Char} {rest : List (List Char)}
    (h : splitChar ',' s.toList = hd :: pl :: rest) :
    _dataUriToBlob s = decodePayload hd pl := by
  unfold _dataUriToBlob
  rw [h]

theorem splitChar_single {c : Char} {l z : List Char} (e : splitChar c l = [z]) :
    l = z ∧ c ∉ l := by
  induction l generalizing z with
  | nil =>
    simp only [splitChar, List.cons.injEq, and_true] at e
    subst e
    exact ⟨rfl, by simp⟩
  | cons x xs ih =>
    rcases e2 : splitChar c xs with _ | ⟨hh, tt⟩
    · exact absurd e2 (splitChar_ne_nil _ _)
    · simp only [splitChar, e2] at e
      by_cases hx : x = c
      · rw [if_pos hx] at e
        simp at e
      · rw [if_neg hx] at e
        simp only [List.cons.injEq] at e
        obtain ⟨hz, htt⟩ := e
        subst htt
        obtain ⟨hxs, hnm⟩ := ih e2
        subst hxs
        refine ⟨hz, ?_⟩
        simp only [List.mem_cons, not_or]
        exact ⟨fun ee => hx ee.symm, hnm⟩

theorem splitChar_pair {c : Char} {l h1 h2 : List Char} (e : splitChar c l = [h1, h2]) :
    l = h1 ++ c :: h2 ∧ c ∉ h1 := by
  induction l generalizing h1 with
  | nil => simp [splitChar] at e
  | cons x xs ih =>
    rcases e2 : splitChar c xs with _ | ⟨hh, tt⟩
    · exact absurd e2 (splitChar_ne_nil _ _)
    · simp only [splitChar, e2] at e
      by_cases hx : x = c
      · rw [if_pos hx] at e
        simp only [List.cons.injEq] at e
        obtain ⟨hh1, hhh, htt⟩ := e
        subst hh1
        subst htt
        subst hhh
        obtain ⟨hxs, _⟩ := splitChar_single e2
        subst hxs
        exact ⟨by simp [hx], by simp⟩
      · rw [if_neg hx] at e
        simp only [List.cons.injEq] at e
        obtain ⟨hh1, htt⟩ := e
        subst hh1
        have e3 : splitChar c xs = [hh, h2] := by rw [e2, htt]
        obtain ⟨hxs, hnm⟩ := ih e3
        subst hxs
        refine ⟨by simp, ?_⟩
        simp only [List.mem_cons, not_or]
        exact ⟨fun ee => hx ee.symm, hnm⟩

theorem breakAtFirst_not_mem {c : Char} {l : List Char} (h : c ∉ l) :
    breakAtFirst c l = (l, none) := by
  induction l with
  | nil => rfl
  | cons x xs ih =>
    simp only [List.mem_cons, not_or] at h
    have hx : ¬x = c := fun e => h.1 e.symm
    simp [breakAtFirst, hx, ih h.2]

theorem breakAtFirst_append {c : Char} {l1 l2 : List Char} (h : c ∉ l1) :
    breakAtFirst c (l1 ++ c :: l2) = (l1, some l2) := by
  induction l1 with
  | nil => simp [breakAtFirst]
  | cons x xs ih =>
    simp only [List.mem_cons, not_or] at h
    have hx : ¬x = c := fun e => h.1 e.symm
    simp [breakAtFirst, hx, ih h.2]

/-! ## Claim C5: split on the first comma only -/

/-- C5, counterexample.  The source computes the payload as
`dataUri.split(",")[1]`, the segment between the first and second comma, so a
payload containing a comma is truncated at it; the spec sentence (whole
remainder after the first comma) disagrees on such inputs. -/
theorem c5_counterexample :
    _dataUriToBlob "data:a/b,AA,BB" ≠ dataUriToBlobFirstComma "data:a/b,AA,BB" ∧
    _dataUriToBlob "data:a/b,AA,BB" = some { bytes := [65, 65], type := "a/b" } ∧
    dataUriToBlobFirstComma "data:a/b,AA,BB" =
      some { bytes := [65, 65, 44, 66, 66], type := "a/b" } :=
  ⟨by decide, by decide, by decide⟩

/-- C5, amended: the codec splits on every comma and takes the segment
between the first and the second comma as the payload; on every data URI
whose text after the first comma contains no further comma (in particular
every base64 payload the pipeline itself produces) this agrees with the
first-comma reading of the spec. -/
theorem c5_first_comma_agreement (s : String)
    (h : (splitChar ',' s.toList).length ≤ 2) :
    _dataUriToBlob s = dataUriToBlobFirstComma s := by
  rcases e : splitChar ',' s.toList with _ | ⟨h0, t⟩
  · exact absurd e (splitChar_ne_nil _ _)
  rcases t with _ | ⟨h1, t1⟩
  · obtain ⟨hl, hnm⟩ := splitChar_single e
    unfold _dataUriToBlob dataUriToBlobFirstComma
    rw [e, breakAtFirst_not_mem hnm]
  rcases t1 with _ | ⟨h2, t2⟩
  · obtain ⟨hl, hnm⟩ := splitChar_pair e
    unfold _dataUriToBlob dataUriToBlobFirstComma
    rw [e, hl, breakAtFirst_append hnm]
  · rw [e] at h
    simp only [List.length_cons] at h
    omega

/-- C5, witness for the amended theorem at a concrete base64 data URI. -/
theorem c5_first_comma_agreement_witness :
    _dataUriToBlob "data:a/b;base64,AAEC" = dataUriToBlobFirstComma "data:a/b;base64,AAEC" :=
  c5_first_comma_agreement "data:a/b;base64,AAEC" (by decide)

/-! ## Claim C4: codec round trip -/

/-- C4, counterexample.  The percent leg of the round trip fails: byte 44
(the comma) percent-encodes to the escape sequence of a URI reserved
character, which the platform decodeURI leaves unescaped, so the decoded
bytes are the three characters of the escape text rather than the original
byte. -/
theorem c4_counterexample :
    _dataUriToBlob (mkPercentDataUri "a/b" [44]) ≠ some { bytes := [44], type := "a/b" } ∧
    _dataUriToBlob (mkPercentDataUri "a/b" [44]) =
      some { bytes := [37, 50, 67], type := "a/b" } :=
  ⟨by decide, by decide⟩

/-- C4, amended: for every well-formed MIME string (no comma, colon or
semicolon) and every byte sequence, the base64 data URI round-trips through
the codec to exactly the original bytes and MIME type; the percent-encoded
round trip holds for the byte sequences whose escapes decodeURI actually
unescapes, namely bytes below 128 outside the URI reserved set (when the
header does not itself contain the token base64). -/
theorem c4_roundTrip :
    (∀ (mime : String) (bytes : List Nat),
      (∀ b ∈ bytes, b < 256) →
      ',' ∉ mime.toList → ':' ∉ mime.toList → ';' ∉ mime.toList →
      _dataUriToBlob (mkBase64DataUri mime bytes) = some { bytes := bytes, type := mime }) ∧
    (∀ (mime : String) (bytes : List Nat),
      (∀ b ∈ bytes, b < 128 ∧ b ∉ uriReservedCodes) →
      ',' ∉ mime.toList → ':' ∉ mime.toList → ';' ∉ mime.toList →
      hasSub ("base64").toList (("data:" ++ mime).toList) = false →
      _dataUriToBlob (mkPercentDataUri mime bytes) = some { bytes := bytes, type := mime }) := by
  constructor
  · intro mime bytes hb hc1 hc2 hc3
    have hlist : (mkBase64DataUri mime bytes).toList =
        (("data:").toList ++ mime.toList ++ (";base64").toList) ++ ',' :: btoaChars bytes := by
      unfold mkBase64DataUri btoa
      simp only [toList_append, toList_mk]
      rw [show (";base64,").toList = (";base64").toList ++ [','] from rfl]
      simp [List.append_assoc]
    have hcH : ',' ∉ ("data:").toList ++ mime.toList ++ (";base64").toList := by
      simp only [List.mem_append, not_or]
      refine ⟨⟨by decide, hc1⟩, by decide⟩
    have hs : splitChar ',' (mkBase64DataUri mime bytes).toList =
        [("data:").toList ++ mime.toList ++ (";base64").toList, btoaChars bytes] := by
      rw [hlist]
      exact splitChar_append_two _ _ hcH (comma_not_mem_btoaChars bytes)
    rw [dataUriToBlob_cons hs]
    have hb64 : hasSub ("base64").toList
        (("data:").toList ++ mime.toList ++ (";base64").toList) = true := by
      have hre : ("data:").toList ++ mime.toList ++ (";base64").toList =
          (("data:").toList ++ mime.toList ++ [';']) ++ (("base64").toList ++ []) := by
        rw [show (";base64").toList = [';'] ++ ("base64").toList from rfl]
        simp [List.append_assoc]
      rw [hre]
      exact hasSub_append_mid _ _ _
    have hcolon : splitChar ':' (("data:").toList ++ mime.toList ++ (";base64").toList) =
        [("data").toList, mime.toList ++ (";base64").toList] := by
      have hre : ("data:").toList ++ mime.toList ++ (";base64").toList =
          ("data").toList ++ ':' :: (mime.toList ++ (";base64").toList) := by
        rw [show ("data:").toList = ("data").toList ++ [':'] from rfl]
        simp [List.append_assoc]
      rw [hre]
      refine splitChar_append_two _ _ (by decide) ?_
      simp only [List.mem_append, not_or]
      exact ⟨hc2, by decide⟩
    have hsemi : splitChar ';' (mime.toList ++ (";base64").toList) =
        [mime.toList, ("base64").toList] := by
      rw [show (";base64").toList = ';' :: ("base64").toList from rfl]
      exact splitChar_append_two _ _ hc3 (by decide)
    simp only [decodePayload, hb64, if_true, Option.some_bind, atob_btoa bytes hb,
      hcolon, hsemi, List.headD_cons, mk_toList, map_mod_256 hb, _createBlob]
  · intro mime bytes hb hc1 hc2 hc3 hnotb64
    have hlist : (mkPercentDataUri mime bytes).toList =
        (("data:").toList ++ mime.toList) ++ ',' :: percentEncode bytes := by
      unfold mkPercentDataUri
      simp only [toList_append, toList_mk]
      rw [show (",").toList = [','] from rfl]
      simp [List.append_assoc]
    have hcH : ',' ∉ ("data:").toList ++ mime.toList := by
      simp only [List.mem_append, not_or]
      exact ⟨by decide, hc1⟩
    have hs : splitChar ',' (mkPercentDataUri mime bytes).toList =
        [("data:").toList ++ mime.toList, percentEncode bytes] := by
      rw [hlist]
      exact splitChar_append_two _ _ hcH (comma_not_mem_percentEncode bytes)
    rw [dataUriToBlob_cons hs]
    have hb64 : hasSub ("base64").toList (("data:").toList ++ mime.toList) = false := by
      rw [← toList_append]
      exact hnotb64
    have hcolon : splitChar ':' (("data:").toList ++ mime.toList) =
        [("data").toList, mime.toList] := by
      have hre : ("data:").toList ++ mime.toList =
          ("data").toList ++ ':' :: mime.toList := by
        rw [show ("data:").toList = ("data").toList ++ [':'] from rfl]
        simp [List.append_assoc]
      rw [hre]
      exact splitChar_append_two _ _ (by decide) hc2
    have hsemi : splitChar ';' mime.toList = [mime.toList] := splitChar_not_mem hc3
    have hlt : ∀ b ∈ bytes, b < 256 := fun b hbb => by
      have := (hb b hbb).1
      omega
    simp only [decodePayload, hb64, Bool.false_eq_true, if_false, Option.some_bind,
      decodeURI_percentEncode bytes hb, hcolon, hsemi, List.headD_cons, mk_toList,
      map_mod_256 hlt, _createBlob]

/-- C4, witness: both legs of the amended round trip at concrete inputs. -/
theorem c4_roundTrip_witness :
    _dataUriToBlob (mkBase64DataUri "image/png" [0, 255, 10]) =
      some { bytes := [0, 255, 10], type := "image/png" } ∧
    _dataUriToBlob (mkPercentDataUri "image/png" [65, 66]) =
      some { bytes := [65, 66], type := "image/png" } :=
  ⟨c4_roundTrip.1 "image/png" [0, 255, 10] (by decide) (by decide) (by decide) (by decide),
   c4_roundTrip.2 "image/png" [65, 66] (by decide) (by decide) (by decide) (by decide)
     (by decide)⟩

example : _dataUriToBlob "data:image/jpeg;base64,AAEC" =
    some { bytes := [0, 1, 2], type := "image/jpeg" } := by decide

example : _dataUriToBlob "data:text/plain,AB%2C" =
    some { bytes := [65, 66, 37, 50, 67], type := "text/plain" } := by decide

example : mkBase64DataUri "image/jpeg" [0, 1, 2] = "data:image/jpeg;base64,AAEC" := by decide

end Scaler
